import Mathlib

/-!
Verification of the woltka alignment-file parsing module (`woltka/align.py`).

The Python module is shallowly embedded below.  Strings are modelled as
`List Char`, Python exceptions as an explicit error type threaded through
`Except`, and the streaming generator `parse_align_file` as a function
returning the full list of yielded chunks (an error models the generator
raising, in which case the yielded prefix is not represented).
-/

namespace Woltka

/-- Python strings are modelled as lists of characters. -/
abbrev Str := List Char

/-- Python exception classes that the module can raise. -/
inductive PyErr
  | typeError
  | valueError
  | indexError
deriving DecidableEq

/-- Whitespace characters stripped by Python `str.rstrip()` and used by
`str.split()` (ASCII subset, which covers alignment-file content). -/
def pyIsSpaceChar (c : Char) : Bool :=
  c = ' ' || c = '\t' || c = '\n' || c = '\r' || c = '\x0b' || c = '\x0c'

/-- Python `line.rstrip()`: remove trailing whitespace. -/
def pyRstrip (s : Str) : Str :=
  (s.reverse.dropWhile pyIsSpaceChar).reverse

/-- Helper for `splitTab`, accumulating the current field. -/
def splitTabGo : Str → Str → List Str
  | [], acc => [acc]
  | c :: r, acc => if c = '\t' then acc :: splitTabGo r [] else splitTabGo r (acc ++ [c])

/-- Python `s.split('\t')` (empty fields kept; the empty string gives one
empty field, as in Python). -/
def splitTab (s : Str) : List Str :=
  splitTabGo s []

/-- Helper for `splitTabMax`: split on tab at most `k` times. -/
def splitTabMaxGo : Nat → Str → Str → List Str
  | _, [], acc => [acc]
  | 0, c :: r, acc => [acc ++ c :: r]
  | k + 1, c :: r, acc =>
    if c = '\t' then acc :: splitTabMaxGo k r [] else splitTabMaxGo (k + 1) r (acc ++ [c])

/-- Python `s.split('\t', k)`: split on tabs, at most `k` splits. -/
def splitTabMax (k : Nat) (s : Str) : List Str :=
  splitTabMaxGo k s []

/-- Helper for `pyWSplit`. -/
def pyWSplitGo : Str → Str → List Str
  | [], acc => if acc.isEmpty then [] else [acc]
  | c :: r, acc =>
    if pyIsSpaceChar c then
      if acc.isEmpty then pyWSplitGo r [] else acc :: pyWSplitGo r []
    else pyWSplitGo r (acc ++ [c])

/-- Python `s.split()` with no argument: split on whitespace runs and drop
empty fields. -/
def pyWSplit (s : Str) : List Str :=
  pyWSplitGo s []

/-- Python `s.isdigit()` for ASCII content: nonempty and all decimal digits. -/
def pyIsdigitStr (s : Str) : Bool :=
  !s.isEmpty && s.all (·.isDigit)

/-- Numeric value of a decimal digit string (most significant digit first). -/
def strToNat (s : Str) : Nat :=
  s.foldl (fun a c => 10 * a + (c.toNat - 48)) 0

/-- Python `int(s)` restricted to nonnegative decimal literals, which is the
shape of every numeric field in the formats handled here; other strings
raise `ValueError`, modelled as `none`. -/
def pyIntOpt (s : Str) : Option Nat :=
  if pyIsdigitStr s then some (strToNat s) else none

/-- Python `int(s)` as an `Except` computation (`ValueError` on failure). -/
def pyIntE (s : Str) : Except PyErr Nat :=
  match pyIntOpt s with
  | some v => .ok v
  | none => .error .valueError

/-- Python float literal check, restricted to the nonnegative decimal
literals appearing in the b6o score field of the lines quantified over
here; Python `float()` accepts more shapes, none of which the claims
depend on. -/
def pyFloatOk (s : Str) : Bool :=
  pyIsdigitStr s

/-- Python `l[i]`: `IndexError` when out of range. -/
def getIdx (l : List Str) (i : Nat) : Except PyErr Str :=
  match l[i]? with
  | some v => .ok v
  | none => .error .indexError

/-- Whether a line starts with the given character (Python `startswith`). -/
def headIs (s : Str) (c : Char) : Bool :=
  match s with
  | [] => false
  | c' :: _ => c' = c

/-- Python `qname.endswith(('/1', '/2'))`. -/
def endsWith12 (s : Str) : Bool :=
  (['/', '1']).isSuffixOf s || (['/', '2']).isSuffixOf s

/-! ### Line parsers (`parse_map_line`, `parse_b6o_line`, `parse_sam_line`,
`cigar_to_lens`, `parse_kraken`, `parse_centrifuge`) -/

/-- Source `parse_map_line`: first two of at most three tab-separated
parts of the rstripped line; `none` models the caught `ValueError`
(fewer than two parts) making the function return Python `None`. -/
def parse_map_line (line : Str) : Option (Str × Str) :=
  match splitTabMax 2 (pyRstrip line) with
  | q :: s :: _ => some (q, s)
  | _ => none

/-- Source `parse_b6o_line`: query, subject, raw score field, length,
start, end.  Python `sorted([a, b])` on two ints is `(min, max)`.
Index and numeric failures are the Python exceptions, in evaluation
order `x[0], x[1], int(x[3]), float(x[11]), int(x[8]), int(x[9])`. -/
def parse_b6o_line (line : Str) : Except PyErr (Str × Str × Str × Nat × Nat × Nat) := do
  let x := splitTab (pyRstrip line)
  let qseqid ← getIdx x 0
  let sseqid ← getIdx x 1
  let length ← pyIntE (← getIdx x 3)
  let scoreS ← getIdx x 11
  if pyFloatOk scoreS then
    let a ← pyIntE (← getIdx x 8)
    let b ← pyIntE (← getIdx x 9)
    return (qseqid, sseqid, scoreS, length, min a b, max a b)
  else
    throw .valueError

/-- Operation letters recognised by `cigar_to_lens` (`'MDIHNPSX='`). -/
def opChars : Str := ['M', 'D', 'I', 'H', 'N', 'P', 'S', 'X', '=']

/-- Letters adding to the alignment length (`'M=X'`). -/
def mxChars : Str := ['M', '=', 'X']

/-- Letters adding to the reference offset (`'DN'`). -/
def dnChars : Str := ['D', 'N']

/-- Loop of `cigar_to_lens`: `a` is the alignment length so far, `o` the
offset so far, `n` the pending numeral characters.  Python calls
`int(n)` only in the `'M=X'` and `'DN'` branches. -/
def cigarGo : Str → Nat → Nat → Str → Except PyErr (Nat × Nat)
  | [], a, o, _ => .ok (a, a + o)
  | c :: r, a, o, n =>
    if c ∈ opChars then
      if c ∈ mxChars then
        match pyIntOpt n with
        | some v => cigarGo r (a + v) o []
        | none => .error .valueError
      else if c ∈ dnChars then
        match pyIntOpt n with
        | some v => cigarGo r a (o + v) []
        | none => .error .valueError
      else cigarGo r a o []
    else cigarGo r a o (n ++ [c])

/-- Source `cigar_to_lens`: returns `(align, align + offset)`. -/
def cigar_to_lens (cigar : Str) : Except PyErr (Nat × Nat) :=
  cigarGo cigar 0 0 []

/-- Record returned by `parse_sam_line`; the `score` slot is the literal
Python `None` third element of the returned tuple. -/
structure SamRec where
  qname : Str
  rname : Str
  score : Option Str
  length : Nat
  start : Nat
  stop : Int
deriving DecidableEq

/-- Source `parse_sam_line`: skip headers and unmapped reads (`none`),
otherwise extract fields, interpret the CIGAR string, and append a
strand suffix to the query id from FLAG bits 64 / 128 when the id does
not already end in `/1` or `/2`. -/
def parse_sam_line (line : Str) : Except PyErr (Option SamRec) :=
  if headIs line '@' then .ok none
  else do
    let x := splitTab (pyRstrip line)
    let qname ← getIdx x 0
    let rname ← getIdx x 2
    if rname = ['*'] then return none
    let pos ← pyIntE (← getIdx x 3)
    let (length, offset) ← cigar_to_lens (← getIdx x 5)
    let qname2 ←
      if endsWith12 qname then pure qname
      else do
        let flag ← pyIntE (← getIdx x 1)
        if flag &&& (1 <<< 6) ≠ 0 then pure (qname ++ ['/', '1'])
        else if flag &&& (1 <<< 7) ≠ 0 then pure (qname ++ ['/', '2'])
        else pure qname
    return some ⟨qname2, rname, none, length, pos, (pos : Int) + offset - 1⟩

/-- Source `parse_kraken`: `(x[1], x[2])` when classified, otherwise the
`(None, None)` pair. -/
def parse_kraken (line : Str) : Except PyErr (Option (Str × Str)) := do
  let x := splitTab (pyRstrip line)
  let c ← getIdx x 0
  if c = ['C'] then
    let q ← getIdx x 1
    let s ← getIdx x 2
    return some (q, s)
  else
    return none

/-- Source `parse_centrifuge`: skip the header line, otherwise return
`(x[0], x[1], int(x[3]), int(x[5]))`. -/
def parse_centrifuge (line : Str) : Except PyErr (Option (Str × Str × Nat × Nat)) :=
  if line.take 6 = ['r', 'e', 'a', 'd', 'I', 'D'] then .ok none
  else do
    let x := splitTab (pyRstrip line)
    let q ← getIdx x 0
    let s ← getIdx x 1
    let score ← pyIntE (← getIdx x 3)
    let length ← pyIntE (← getIdx x 5)
    return some (q, s, score, length)

/-! ### Format inference and parser assignment -/

/-- Source `infer_align_format`.  `line.split()[0]` raises `IndexError` on a
whitespace-only line; otherwise the ordered checks run on the tab-split
of the rstripped line, ending in the `ValueError` for an undetermined
format.  Python `range(3, 10)` is the positions 3 through 9. -/
def infer_align_format (line : Str) : Except PyErr Str :=
  match pyWSplit line with
  | [] => .error .indexError
  | tok :: _ =>
    if tok = "@HD".data then .ok "sam".data
    else
      let row := splitTab (pyRstrip line)
      if row.length = 2 then .ok "map".data
      else if decide (12 ≤ row.length) &&
          (List.range' 3 7).all (fun i => pyIsdigitStr (row.getD i [])) then .ok "b6o".data
      else if decide (11 ≤ row.length) &&
          ([1, 3, 4] : List Nat).all (fun i => pyIsdigitStr (row.getD i [])) then .ok "sam".data
      else .error .valueError

/-- Modelled from the claim wording of the inference algorithm: identical
ordered checks, except that step 1 simply does not match when the line
has no whitespace-delimited token, so a whitespace-only line falls
through to the final format-undetermined failure. -/
def inferAlignFormatSpec (line : Str) : Except PyErr Str :=
  if (pyWSplit line).head? = some "@HD".data then .ok "sam".data
  else
    let row := splitTab (pyRstrip line)
    if row.length = 2 then .ok "map".data
    else if decide (12 ≤ row.length) &&
        (List.range' 3 7).all (fun i => pyIsdigitStr (row.getD i [])) then .ok "b6o".data
    else if decide (11 ≤ row.length) &&
        ([1, 3, 4] : List Nat).all (fun i => pyIsdigitStr (row.getD i [])) then .ok "sam".data
    else .error .valueError

/-- Result of one of the three line parsers handed to the mapper, as the
Python tuple whose first two components `Plain.parse` slices off. -/
inductive PRes
  | map2 (q s : Str)
  | b6o (q s : Str) (score : Str) (length start stop : Nat)
  | sam (q s : Str) (length start : Nat) (stop : Int)
deriving DecidableEq

/-- Python `parser(line)[:2]`: the first two components of the tuple. -/
def PRes.firstTwo : PRes → Str × Str
  | .map2 q s => (q, s)
  | .b6o q s _ _ _ _ => (q, s)
  | .sam q s _ _ _ => (q, s)

/-- Type of the parser callables threaded through the driver: `ok none`
models the parser returning Python `None`, an error models it raising. -/
abbrev Parser := Str → Except PyErr (Option PRes)

/-- The map-format parser as a driver callable. -/
def parseMapLineP : Parser := fun line =>
  .ok ((parse_map_line line).map fun qs => .map2 qs.1 qs.2)

/-- The b6o-format parser as a driver callable. -/
def parseB6oLineP : Parser := fun line =>
  (parse_b6o_line line).map fun r => some (.b6o r.1 r.2.1 r.2.2.1 r.2.2.2.1 r.2.2.2.2.1 r.2.2.2.2.2)

/-- The sam-format parser as a driver callable. -/
def parseSamLineP : Parser := fun line =>
  (parse_sam_line line).map (Option.map fun r => .sam r.qname r.rname r.length r.start r.stop)

/-- Source `assign_parser` (Lean name adjusted): returns the parser for the
codes `map`, `b6o` and `sam`, and raises `ValueError` for everything
else — including `kraken` and `centrifuge`. -/
def assignParser (fmt : Str) : Except PyErr Parser :=
  if fmt = "map".data then .ok parseMapLineP
  else if fmt = "b6o".data then .ok parseB6oLineP
  else if fmt = "sam".data then .ok parseSamLineP
  else .error .valueError

/-! ### The `Plain` mapper -/

/-- State of a `Plain` mapper: the query-to-subjects cache (a Python dict,
modelled as an insertion-ordered association list with unique keys) and
the single-slot buffer (`none` models the `buf` attribute not existing
yet, the `AttributeError` case of `append`). -/
structure PlainState where
  map : List (Str × List Str)
  buf : Option (Str × Str)
deriving DecidableEq

/-- Python `Plain()`: empty map, no buffer attribute. -/
def Plain.init : PlainState :=
  ⟨[], none⟩

/-- Python `d.setdefault(q, []).append(sub)` on an insertion-ordered dict. -/
def setdefaultAppend (m : List (Str × List Str)) (q sub : Str) : List (Str × List Str) :=
  match m with
  | [] => [(q, [sub])]
  | (k, v) :: rest =>
    if k = q then (k, v ++ [sub]) :: rest else (k, v) :: setdefaultAppend rest q sub

/-- Source `Plain.parse`: `self.buf = parser(line)[:2]; return self.buf[0]`.
When the parser returns `None`, subscripting raises `TypeError` before
the assignment, so the buffer is unchanged and no new state is produced;
a parser error propagates as-is. -/
def Plain.parse (s : PlainState) (p : Parser) (line : Str) : Except PyErr (Str × PlainState) :=
  match p line with
  | .error e => .error e
  | .ok none => .error .typeError
  | .ok (some r) => .ok (r.firstTwo.1, { s with buf := some r.firstTwo })

/-- Source `Plain.append`: no-op without a buffer, otherwise append the
buffered subject to the buffered query's list.  The buffer itself is
only read, never written. -/
def Plain.append (s : PlainState) : PlainState :=
  match s.buf with
  | none => s
  | some (q, sub) => { s with map := setdefaultAppend s.map q sub }

/-- A flushed chunk: queries with deduplicated, unordered subject sets. -/
abbrev Chunk := List (Str × Finset Str)

/-- Conversion applied by `Plain.flush`: each subject list becomes a set. -/
def flushChunk (m : List (Str × List Str)) : Chunk :=
  m.map fun e => (e.1, e.2.toFinset)

/-- Source `Plain.flush`: return the set-converted map and reset the cache
(the buffer is untouched). -/
def Plain.flush (s : PlainState) : Chunk × PlainState :=
  (flushChunk s.map, { s with map := [] })

/-! ### The streaming driver -/

/-- Loop of `parse_align_file` over the remaining lines.  `i` is the line
counter, `j` the target counter for the current chunk, `n` the chunk
size, `last` the last seen query id (`none` models Python `None`).  A
`TypeError` from `Plain.parse` is caught and the line skipped with the
state unchanged; other errors propagate.  The final flush is yielded
unconditionally. -/
def parseAlignFileGo (p : Parser) :
    List Str → Nat → Nat → Nat → Option Str → PlainState → Except PyErr (List Chunk)
  | [], _, _, _, _, s => .ok [(Plain.flush s).1]
  | line :: rest, i, j, n, last, s =>
    match Plain.parse s p line with
    | .error .typeError => parseAlignFileGo p rest i j n last s
    | .error .valueError => .error .valueError
    | .error .indexError => .error .indexError
    | .ok (q, s1) =>
      if some q ≠ last then
        if j ≤ i + 1 then
          match parseAlignFileGo p rest (i + 1) (i + 1 + n) n (some q)
              (Plain.append { s1 with map := [] }) with
          | .error e => .error e
          | .ok chs => .ok (flushChunk s1.map :: chs)
        else parseAlignFileGo p rest (i + 1) j n (some q) (Plain.append s1)
      else parseAlignFileGo p rest (i + 1) j n last (Plain.append s1)

/-- Source `parse_align_file` with a `Plain` mapper, returning the list of
yielded chunks.  `n or 1000000` makes a missing or zero chunk size the
default one million.  With no format given, the first line drives format
inference and is parsed and appended before the loop; an empty stream
returns without yielding. -/
def parse_align_file (lines : List Str) (fmtOpt : Option Str) (nOpt : Option Nat) :
    Except PyErr (List Chunk) :=
  let n := match nOpt with
    | none => 1000000
    | some k => if k = 0 then 1000000 else k
  match fmtOpt with
  | some fmt =>
    match assignParser fmt with
    | .error e => .error e
    | .ok p => parseAlignFileGo p lines 0 n n none Plain.init
  | none =>
    match lines with
    | [] => .ok []
    | line1 :: rest =>
      match infer_align_format line1 with
      | .error e => .error e
      | .ok fmt =>
        match assignParser fmt with
        | .error e => .error e
        | .ok p =>
          match Plain.parse Plain.init p line1 with
          | .error .typeError => parseAlignFileGo p rest 0 n n none (Plain.append Plain.init)
          | .error .valueError => .error .valueError
          | .error .indexError => .error .indexError
          | .ok (q, s1) => parseAlignFileGo p rest 1 n n (some q) (Plain.append s1)

/-! ### Observations used by the claims -/

/-- Keys of a mapper cache or of a chunk-shaped association list. -/
def keys {α : Type} (m : List (Str × α)) : List Str :=
  m.map Prod.fst

/-- Whether a chunk contains the query as a key. -/
def hasKey (q : Str) (ch : Chunk) : Bool :=
  ch.any fun e => e.1 == q

/-- Subject list cached for a query (`[]` when absent). -/
def lookupList (m : List (Str × List Str)) (q : Str) : List Str :=
  (((m.find? fun e => e.1 == q).map Prod.snd).getD [])

/-- Subject set recorded for a query in a chunk (`∅` when absent). -/
def chunkLookup (ch : Chunk) (q : Str) : Finset Str :=
  (((ch.find? fun e => e.1 == q).map Prod.snd).getD ∅)

/-- Union over all chunks of the subject set of a query: the merged
query-to-subjects association of a full run. -/
def mergedSubjects (chunks : List Chunk) (q : Str) : Finset Str :=
  (chunks.map fun ch => chunkLookup ch q).foldr (· ∪ ·) ∅

/-- The (query, subject) pairs a parser extracts from a line sequence, in
order, skipping lines it rejects. -/
def pairsOf (p : Parser) (lines : List Str) : List (Str × Str) :=
  lines.filterMap fun l =>
    match p l with
    | .ok (some r) => some r.firstTwo
    | _ => none

/-- The successful query-id sequence of a stream under a parser. -/
def parserQueries (p : Parser) (lines : List Str) : List Str :=
  (pairsOf p lines).map Prod.fst

/-- Subjects associated with one query over a whole stream. -/
def subjectsOf (p : Parser) (lines : List Str) (q : Str) : List Str :=
  ((pairsOf p lines).filter fun pr => pr.1 == q).map Prod.snd

/-- The parser the driver ends up using: the assigned one for an explicit
format, otherwise the one assigned from the format inferred on the
first line (the sentinel error for an empty stream is never consulted,
as the driver yields nothing there). -/
def resolveParser (lines : List Str) (fmtOpt : Option Str) : Except PyErr Parser :=
  match fmtOpt with
  | some f => assignParser f
  | none =>
    match lines with
    | [] => .error .valueError
    | l1 :: _ =>
      match infer_align_format l1 with
      | .error e => .error e
      | .ok f => assignParser f

/-- Query-id sequence of a full driver run (empty when the parser cannot
even be resolved, in which case the driver yields nothing). -/
def queriesOf (lines : List Str) (fmtOpt : Option Str) : List Str :=
  match resolveParser lines fmtOpt with
  | .ok p => parserQueries p lines
  | .error _ => []

/-- Subjects of one query over a full driver run. -/
def allSubjects (lines : List Str) (fmtOpt : Option Str) (q : Str) : List Str :=
  match resolveParser lines fmtOpt with
  | .ok p => subjectsOf p lines q
  | .error _ => []

/-- A query sequence is contiguous when each element either equals its
successor or never occurs again: equal query ids always form one
uninterrupted run. -/
def Contig : List Str → Prop
  | [] => True
  | [_] => True
  | a :: b :: l => (a = b ∨ a ∉ (b :: l)) ∧ Contig (b :: l)

/-- Contiguity is decidable, so it can be checked on concrete streams. -/
def decContig : (l : List Str) → Decidable (Contig l)
  | [] => .isTrue trivial
  | [_] => .isTrue trivial
  | _ :: b :: l =>
    match decContig (b :: l) with
    | .isTrue h =>
      if h2 : _ = b ∨ _ ∉ (b :: l) then .isTrue ⟨h2, h⟩ else .isFalse fun hc => h2 hc.1
    | .isFalse h => .isFalse fun hc => h hc.2

instance (l : List Str) : Decidable (Contig l) := decContig l

/-- Equality of `Except` values with decidable components is decidable. -/
def decEqExcept {ε α : Type} [DecidableEq ε] [DecidableEq α] :
    DecidableEq (Except ε α) := fun x y =>
  match x, y with
  | .error a, .error b =>
    if h : a = b then .isTrue (by rw [h]) else .isFalse fun hc => h (Except.error.inj hc)
  | .error _, .ok _ => .isFalse fun hc => Except.noConfusion hc
  | .ok _, .error _ => .isFalse fun hc => Except.noConfusion hc
  | .ok a, .ok b =>
    if h : a = b then .isTrue (by rw [h]) else .isFalse fun hc => h (Except.ok.inj hc)

instance {ε α : Type} [DecidableEq ε] [DecidableEq α] : DecidableEq (Except ε α) :=
  decEqExcept

/-- Rendering of a CIGAR token sequence (numeral characters followed by an
operation letter, per token) into the CIGAR string. -/
def renderCigar (toks : List (Str × Char)) : Str :=
  (toks.map fun t => t.1 ++ [t.2]).flatten

/-- Sum of the operand values of the `M`, `=`, `X` tokens. -/
def alignSumToks (toks : List (Str × Char)) : Nat :=
  (toks.map fun t => if t.2 ∈ mxChars then strToNat t.1 else 0).sum

/-- Sum of the operand values of the `D`, `N` tokens. -/
def dnSumToks (toks : List (Str × Char)) : Nat :=
  (toks.map fun t => if t.2 ∈ dnChars then strToNat t.1 else 0).sum

/-- A well-formed CIGAR token: a nonempty numeral and an operation letter. -/
def GoodTok (t : Str × Char) : Prop :=
  t.1 ≠ [] ∧ (∀ c ∈ t.1, c.isDigit = true) ∧ t.2 ∈ opChars

instance (t : Str × Char) : Decidable (GoodTok t) := by
  unfold GoodTok; infer_instance

/-! ## Theorems -/

/-- Digit characters are not CIGAR operation letters. -/
theorem digit_not_op {c : Char} (h : c.isDigit = true) : c ∉ opChars := by
  intro hm
  simp only [opChars, List.mem_cons, List.not_mem_nil, or_false] at hm
  rcases hm with rfl | rfl | rfl | rfl | rfl | rfl | rfl | rfl | rfl <;>
    exact absurd h (by decide)

/-- A nonempty all-digit numeral parses to its value. -/
theorem pyIntOpt_digits {s : Str} (h1 : s ≠ []) (h2 : ∀ c ∈ s, c.isDigit = true) :
    pyIntOpt s = some (strToNat s) := by
  have : pyIsdigitStr s = true := by
    unfold pyIsdigitStr
    rw [Bool.and_eq_true, Bool.not_eq_true', List.all_eq_true]
    refine ⟨?_, h2⟩
    cases s with
    | nil => exact absurd rfl h1
    | cons c r => rfl
  simp [pyIntOpt, this]

/-- The CIGAR loop carries a digit run into the numeral accumulator. -/
theorem cigarGo_digits (ds : Str) (hd : ∀ c ∈ ds, c.isDigit = true) :
    ∀ (rest : Str) (a o : Nat) (n : Str),
      cigarGo (ds ++ rest) a o n = cigarGo rest a o (n ++ ds) := by
  induction ds with
  | nil => simp
  | cons c ds ih =>
    intro rest a o n
    have hnotop : c ∉ opChars := digit_not_op (hd c (by simp))
    rw [List.cons_append, cigarGo, if_neg hnotop,
      ih (fun c hc => hd c (by simp [hc])) rest a o (n ++ [c])]
    simp

/-- Running the CIGAR loop over a rendered token sequence adds the `M=X`
operand sum to the alignment accumulator and the `DN` operand sum to the
offset accumulator. -/
theorem cigarGo_render (toks : List (Str × Char)) (h : ∀ t ∈ toks, GoodTok t) :
    ∀ (rest : Str) (a o : Nat),
      cigarGo (renderCigar toks ++ rest) a o [] =
        cigarGo rest (a + alignSumToks toks) (o + dnSumToks toks) [] := by
  induction toks with
  | nil => simp [renderCigar, alignSumToks, dnSumToks]
  | cons t toks ih =>
    obtain ⟨num, c⟩ := t
    intro rest a o
    obtain ⟨h1, h2, h3⟩ := h (num, c) (by simp)
    have hih := ih fun u hu => h u (by simp [hu])
    have hrender : renderCigar ((num, c) :: toks) ++ rest =
        num ++ (c :: (renderCigar toks ++ rest)) := by
      simp [renderCigar]
    rw [hrender, cigarGo_digits num h2, List.nil_append, cigarGo, if_pos h3]
    have hint : pyIntOpt num = some (strToNat num) := pyIntOpt_digits h1 h2
    by_cases hmx : c ∈ mxChars
    · have hdn : c ∉ dnChars := by
        simp only [mxChars, List.mem_cons, List.not_mem_nil, or_false] at hmx
        rcases hmx with rfl | rfl | rfl <;> decide
      simp only [if_pos hmx, hint]
      rw [hih]
      have ha : alignSumToks ((num, c) :: toks) = strToNat num + alignSumToks toks := by
        simp [alignSumToks, hmx]
      have hd : dnSumToks ((num, c) :: toks) = dnSumToks toks := by
        simp [dnSumToks, hdn]
      rw [ha, hd]
      ring_nf
    · by_cases hdn : c ∈ dnChars
      · simp only [if_neg hmx, if_pos hdn, hint]
        rw [hih]
        have ha : alignSumToks ((num, c) :: toks) = alignSumToks toks := by
          simp [alignSumToks, hmx]
        have hd : dnSumToks ((num, c) :: toks) = strToNat num + dnSumToks toks := by
          simp [dnSumToks, hdn]
        rw [ha, hd]
        ring_nf
      · simp only [if_neg hmx, if_neg hdn]
        rw [hih]
        have ha : alignSumToks ((num, c) :: toks) = alignSumToks toks := by
          simp [alignSumToks, hmx]
        have hd : dnSumToks ((num, c) :: toks) = dnSumToks toks := by
          simp [dnSumToks, hdn]
        rw [ha, hd]

/-- C5: on every well-formed CIGAR string (a sequence of numeral/letter
tokens with letters from `MDIHNPSX=`), the interpreter returns the exact
integer sum of the `M`, `=`, `X` operand values as the alignment length
and that sum plus the exact integer sum of the `D`, `N` operand values
as the reference span; `I`, `H`, `P`, `S` tokens affect neither. -/
theorem cigar_to_lens_sums (toks : List (Str × Char)) (h : ∀ t ∈ toks, GoodTok t) :
    cigar_to_lens (renderCigar toks) =
      .ok (alignSumToks toks, alignSumToks toks + dnSumToks toks) := by
  have := cigarGo_render toks h [] 0 0
  rw [List.append_nil] at this
  rw [cigar_to_lens, this]
  simp [cigarGo]

/-- Witness for C5 on the CIGAR string `3M10D2I4=5S6X7N8H9P`. -/
theorem cigar_to_lens_sums_witness :
    (∀ t ∈ ([(['3'], 'M'), (['1', '0'], 'D'), (['2'], 'I'), (['4'], '='), (['5'], 'S'),
        (['6'], 'X'), (['7'], 'N'), (['8'], 'H'), (['9'], 'P')] : List (Str × Char)),
      GoodTok t) ∧
    cigar_to_lens (renderCigar [(['3'], 'M'), (['1', '0'], 'D'), (['2'], 'I'), (['4'], '='),
        (['5'], 'S'), (['6'], 'X'), (['7'], 'N'), (['8'], 'H'), (['9'], 'P')]) =
      .ok (13, 30) :=
  ⟨by decide, cigar_to_lens_sums _ (by decide)⟩

/-- Looking a query up after a `setdefault`-append: the appended query's
list grows by the subject at the end, every other list is unchanged. -/
theorem lookupList_setdefaultAppend (m : List (Str × List Str)) (q qc sub : Str) :
    lookupList (setdefaultAppend m qc sub) q =
      if q = qc then lookupList m q ++ [sub] else lookupList m q := by
  induction m with
  | nil =>
    by_cases h : q = qc
    · subst h; simp [setdefaultAppend, lookupList, List.find?]
    · simp [setdefaultAppend, lookupList, List.find?, h,
        beq_false_of_ne (Ne.symm h)]
  | cons e m ih =>
    obtain ⟨k, v⟩ := e
    by_cases hk : k = qc
    · subst hk
      by_cases hq : q = k
      · subst hq; simp [setdefaultAppend, lookupList, List.find?]
      · simp [setdefaultAppend, lookupList, List.find?, hq,
          beq_false_of_ne (Ne.symm hq)]
    · by_cases hq : q = k
      · subst hq
        simp [setdefaultAppend, lookupList, List.find?, hk, Ne.symm hk]
      · simp [setdefaultAppend, lookupList, List.find?, hk,
          beq_false_of_ne (Ne.symm hq)] at ih ⊢
        exact ih

/-- C3 (counterexample): requesting the `kraken` format tag does not return
a parser; it raises the invalid-format `ValueError`, refuting the claim
that every tag of the five-element set gets its parser assigned. -/
theorem assignParser_kraken_cex :
    assignParser "kraken".data = .error .valueError := rfl

/-- C3 (amended): parser assignment succeeds exactly on the three-element
set of format codes `map`, `b6o`, `sam`, returning that format's line
parser, and raises the fatal `ValueError` for every other tag —
including `kraken` and `centrifuge`. -/
theorem assignParser_three_formats :
    assignParser "map".data = .ok parseMapLineP ∧
    assignParser "b6o".data = .ok parseB6oLineP ∧
    assignParser "sam".data = .ok parseSamLineP ∧
    ∀ fmt : Str, fmt ≠ "map".data → fmt ≠ "b6o".data → fmt ≠ "sam".data →
      assignParser fmt = .error .valueError := by
  refine ⟨rfl, rfl, rfl, fun fmt h1 h2 h3 => ?_⟩
  simp [assignParser, h1, h2, h3]

/-- Witness for the amended C3 statement at the tag `centrifuge`. -/
theorem assignParser_three_formats_witness :
    ("centrifuge".data ≠ "map".data ∧ "centrifuge".data ≠ "b6o".data ∧
      "centrifuge".data ≠ "sam".data) ∧
    assignParser "centrifuge".data = .error .valueError :=
  ⟨⟨by decide, by decide, by decide⟩,
    assignParser_three_formats.2.2.2 "centrifuge".data (by decide) (by decide) (by decide)⟩

/-- C9 (counterexample): an empty stream with the format pre-specified as
`map` yields one (empty) mapping — the unconditional final flush — not
zero mappings as claimed. -/
theorem empty_stream_yield_cex :
    parse_align_file [] (some "map".data) none = .ok [[]] ∧
    parse_align_file [] (some "map".data) none ≠ .ok [] := by
  refine ⟨rfl, fun h => ?_⟩
  rw [show parse_align_file [] (some "map".data) none = .ok [[]] from rfl] at h
  simp at h

/-- C9 (amended): on an empty stream the driver yields nothing when the
format is left for inference, but yields exactly one empty mapping when
a valid format is pre-specified, for every chunk-size setting. -/
theorem empty_stream_flush :
    (∀ nOpt, parse_align_file [] none nOpt = .ok []) ∧
    ∀ fmt nOpt, (fmt = "map".data ∨ fmt = "b6o".data ∨ fmt = "sam".data) →
      parse_align_file [] (some fmt) nOpt = .ok [[]] := by
  constructor
  · intro nOpt; rfl
  · rintro fmt nOpt (rfl | rfl | rfl) <;> rfl

/-- Witness for the amended C9 statement at the `map` format. -/
theorem empty_stream_flush_witness :
    ("map".data = "map".data ∨ "map".data = "b6o".data ∨ "map".data = "sam".data) ∧
    parse_align_file [] (some "map".data) (some 5) = .ok [[]] :=
  ⟨Or.inl rfl, empty_stream_flush.2 "map".data (some 5) (Or.inl rfl)⟩

/-- C2 (counterexample): the three-line plain-map scenario with the format
pre-specified and chunk size 1 does not yield the two claimed mappings:
the first parsed line already differs from the initial unset last-query
marker with the counter at threshold, so an extra empty chunk is
flushed first. -/
theorem stream_scenario_two_chunks_cex :
    parse_align_file ["q1\ts1\n".data, "q1\ts2\n".data, "q2\ts3\n".data]
        (some "map".data) (some 1) ≠
      .ok [[("q1".data, (["s1".data, "s2".data] : List Str).toFinset)],
           [("q2".data, (["s3".data] : List Str).toFinset)]] := by
  intro h
  rw [show parse_align_file ["q1\ts1\n".data, "q1\ts2\n".data, "q2\ts3\n".data]
        (some "map".data) (some 1) =
      .ok [([] : Chunk),
           [("q1".data, (["s1".data, "s2".data] : List Str).toFinset)],
           [("q2".data, (["s3".data] : List Str).toFinset)]] from rfl] at h
  simp at h

/-- C2 (amended): the scenario yields exactly three mappings: an initial
empty one (flushed on line 1 because the last-query marker is initially
unset, so `q1` differs from it and counter 1 meets threshold 1), then
`q1 ↦ {s1, s2}` when `q2` is seen, then `q2 ↦ {s3}` at stream end. -/
theorem stream_scenario_three_chunks :
    parse_align_file ["q1\ts1\n".data, "q1\ts2\n".data, "q2\ts3\n".data]
        (some "map".data) (some 1) =
      .ok [([] : Chunk),
           [("q1".data, (["s1".data, "s2".data] : List Str).toFinset)],
           [("q2".data, (["s3".data] : List Str).toFinset)]] := rfl

/-- C4 (counterexample): on a whitespace-only first line, inference raises
`IndexError` from subscripting the empty token list, not the claimed
format-undetermined error the ordered checks would end in. -/
theorem infer_whitespace_line_cex :
    infer_align_format ['\n'] = .error .indexError ∧
    inferAlignFormatSpec ['\n'] = .error .valueError ∧
    infer_align_format ['\n'] ≠ inferAlignFormatSpec ['\n'] := by
  refine ⟨rfl, rfl, ?_⟩
  decide

/-- C4 (amended): on every first line containing at least one
non-whitespace character, format inference is exactly the claimed
ordered-check procedure (first match wins, ending in the
format-undetermined failure); only whitespace-only lines escape it. -/
theorem infer_align_format_matches_spec (line : Str) (h : pyWSplit line ≠ []) :
    infer_align_format line = inferAlignFormatSpec line := by
  cases hw : pyWSplit line with
  | nil => exact absurd hw h
  | cons tok rest => simp [infer_align_format, inferAlignFormatSpec, hw]

/-- Witness for the amended C4 statement on a two-column first line. -/
theorem infer_align_format_matches_spec_witness :
    pyWSplit "q1\ts1\n".data ≠ [] ∧
    infer_align_format "q1\ts1\n".data = inferAlignFormatSpec "q1\ts1\n".data :=
  ⟨by decide, infer_align_format_matches_spec "q1\ts1\n".data (by decide)⟩

/-- C10: `append` only reads the single-slot buffer (it is left unchanged),
so after one successful `parse`, two `append` calls with no parse in
between append the buffered subject to the buffered query's list twice. -/
theorem plain_append_frame :
    (∀ s : PlainState, (Plain.append s).buf = s.buf) ∧
    ∀ (s : PlainState) (p : Parser) (line : Str) (q : Str) (s1 : PlainState),
      Plain.parse s p line = .ok (q, s1) →
      ∃ sub, s1.buf = some (q, sub) ∧
        lookupList (Plain.append (Plain.append s1)).map q =
          lookupList s1.map q ++ [sub, sub] := by
  constructor
  · intro s
    cases h : s.buf with
    | none => simp [Plain.append, h]
    | some pr => obtain ⟨q, sub⟩ := pr; simp [Plain.append, h]
  · intro s p line q s1 hp
    cases hpl : p line with
    | error e => simp [Plain.parse, hpl] at hp
    | ok r =>
      cases r with
      | none => simp [Plain.parse, hpl] at hp
      | some r =>
        simp only [Plain.parse, hpl] at hp
        obtain ⟨hq, hs⟩ := Prod.mk.injEq .. ▸ Except.ok.inj hp
        refine ⟨r.firstTwo.2, ?_, ?_⟩
        · rw [← hs, ← hq]
        · have hbuf : s1.buf = some (q, r.firstTwo.2) := by rw [← hs, ← hq]
          have key : (Plain.append (Plain.append s1)).map =
              setdefaultAppend (setdefaultAppend s1.map q r.firstTwo.2) q r.firstTwo.2 := by
            simp only [Plain.append, hbuf]
          rw [key]
          simp [lookupList_setdefaultAppend]

/-- C7: on every valid b6o line (12 or more tab-separated fields with
well-formed numeric fields), the parser returns the smaller of the two
subject coordinates as start and the larger as end, so start ≤ end
regardless of the orientation of fields 8 and 9. -/
theorem parse_b6o_line_sorted (line x0 x1 x2 x3 x4 x5 x6 x7 x8 x9 x10 x11 : Str)
    (rest : List Str)
    (hsplit : splitTab (pyRstrip line) =
      x0 :: x1 :: x2 :: x3 :: x4 :: x5 :: x6 :: x7 :: x8 :: x9 :: x10 :: x11 :: rest)
    (h3 : pyIsdigitStr x3 = true) (h8 : pyIsdigitStr x8 = true)
    (h9 : pyIsdigitStr x9 = true) (h11 : pyFloatOk x11 = true) :
    parse_b6o_line line =
      .ok (x0, x1, x11, strToNat x3,
        min (strToNat x8) (strToNat x9), max (strToNat x8) (strToNat x9)) ∧
    min (strToNat x8) (strToNat x9) ≤ max (strToNat x8) (strToNat x9) := by
  refine ⟨?_, min_le_max⟩
  simp [parse_b6o_line, hsplit, getIdx, pyIntE, pyIntOpt, h3, h8, h9, h11,
    Bind.bind, Except.bind, Functor.map, Except.map, pure, Except.pure,
    throw, throwThe, MonadExceptOf.throw]

/-- Witness for C7 on a line whose subject coordinates are descending. -/
theorem parse_b6o_line_sorted_witness :
    (splitTab (pyRstrip "q\ts\t99\t7\t0\t0\t1\t7\t20\t10\t0\t55\n".data) =
      "q".data :: "s".data :: "99".data :: "7".data :: "0".data :: "0".data :: "1".data ::
        "7".data :: "20".data :: "10".data :: "0".data :: "55".data :: [] ∧
      pyIsdigitStr "7".data = true ∧ pyIsdigitStr "20".data = true ∧
      pyIsdigitStr "10".data = true ∧ pyFloatOk "55".data = true) ∧
    parse_b6o_line "q\ts\t99\t7\t0\t0\t1\t7\t20\t10\t0\t55\n".data =
      .ok ("q".data, "s".data, "55".data, 7, 10, 20) ∧ (10 : Nat) ≤ 20 :=
  ⟨⟨by decide, by decide, by decide, by decide, by decide⟩,
    parse_b6o_line_sorted "q\ts\t99\t7\t0\t0\t1\t7\t20\t10\t0\t55\n".data
      "q".data "s".data "99".data "7".data "0".data "0".data "1".data "7".data
      "20".data "10".data "0".data "55".data []
      (by decide) (by decide) (by decide) (by decide) (by decide)⟩

/-- Python `flag & (1 << k)` is falsy exactly when bit `k` is clear. -/
theorem and_two_pow_eq_zero (f k : Nat) : (f &&& 2 ^ k = 0) ↔ f.testBit k = false := by
  rw [Nat.and_two_pow]
  cases h : f.testBit k <;> simp [h, (Nat.two_pow_pos k).ne']

/-- C6: for every mapped SAM record line, a query id already ending in
`/1` or `/2` is returned unchanged; otherwise FLAG bit 64 appends `/1`,
bit 128 (without bit 64) appends `/2`, and with neither bit the id is
unchanged. -/
theorem parse_sam_line_strand (line x0 x1 x2 x3 x4 x5 : Str) (rest : List Str)
    (al sp : Nat)
    (hhead : headIs line '@' = false)
    (hsplit : splitTab (pyRstrip line) = x0 :: x1 :: x2 :: x3 :: x4 :: x5 :: rest)
    (hrn : x2 ≠ ['*'])
    (hpos : pyIsdigitStr x3 = true)
    (hcg : cigar_to_lens x5 = .ok (al, sp))
    (hflag : pyIsdigitStr x1 = true) :
    ∃ r : SamRec, parse_sam_line line = .ok (some r) ∧ r.rname = x2 ∧
      (endsWith12 x0 = true → r.qname = x0) ∧
      (endsWith12 x0 = false →
        ((strToNat x1).testBit 6 = true → r.qname = x0 ++ ['/', '1']) ∧
        ((strToNat x1).testBit 6 = false → (strToNat x1).testBit 7 = true →
          r.qname = x0 ++ ['/', '2']) ∧
        ((strToNat x1).testBit 6 = false → (strToNat x1).testBit 7 = false →
          r.qname = x0)) := by
  have hflagE : pyIntE x1 = .ok (strToNat x1) := by simp [pyIntE, pyIntOpt, hflag]
  have hposE : pyIntE x3 = .ok (strToNat x3) := by simp [pyIntE, pyIntOpt, hpos]
  by_cases hew : endsWith12 x0 = true
  · refine ⟨⟨x0, x2, none, al, strToNat x3, (strToNat x3 : Int) + sp - 1⟩, ?_, rfl,
      fun _ => rfl, fun hc => absurd hew (by simp [hc])⟩
    simp [parse_sam_line, hhead, hsplit, getIdx, hrn, hposE, hcg, hew,
      Bind.bind, Except.bind, Functor.map, Except.map, pure, Except.pure]
  · have hew' : endsWith12 x0 = false := by simpa using hew
    by_cases hb6 : (strToNat x1).testBit 6 = true
    · refine ⟨⟨x0 ++ ['/', '1'], x2, none, al, strToNat x3, (strToNat x3 : Int) + sp - 1⟩,
        ?_, rfl, fun hc => absurd hc (by simp [hew']),
        fun _ => ⟨fun _ => rfl, fun h6 _ => absurd hb6 (by simp [h6]),
          fun h6 _ => absurd hb6 (by simp [h6])⟩⟩
      have h64 : ¬(strToNat x1 &&& 64 = 0) := by
        rw [show (64 : Nat) = 2 ^ 6 from rfl, and_two_pow_eq_zero, hb6]; simp
      simp [parse_sam_line, hhead, hsplit, getIdx, hrn, hposE, hcg, hew', hflagE, h64,
        Bind.bind, Except.bind, Functor.map, Except.map, pure, Except.pure]
    · have hb6' : (strToNat x1).testBit 6 = false := by simpa using hb6
      by_cases hb7 : (strToNat x1).testBit 7 = true
      · refine ⟨⟨x0 ++ ['/', '2'], x2, none, al, strToNat x3, (strToNat x3 : Int) + sp - 1⟩,
          ?_, rfl, fun hc => absurd hc (by simp [hew']),
          fun _ => ⟨fun h6 => absurd h6 (by simp [hb6']), fun _ _ => rfl,
            fun _ h7 => absurd hb7 (by simp [h7])⟩⟩
        have h64 : strToNat x1 &&& 64 = 0 := by
          rw [show (64 : Nat) = 2 ^ 6 from rfl, and_two_pow_eq_zero]; exact hb6'
        have h128 : ¬(strToNat x1 &&& 128 = 0) := by
          rw [show (128 : Nat) = 2 ^ 7 from rfl, and_two_pow_eq_zero, hb7]; simp
        simp [parse_sam_line, hhead, hsplit, getIdx, hrn, hposE, hcg, hew', hflagE, h64, h128,
          Bind.bind, Except.bind, Functor.map, Except.map, pure, Except.pure]
      · have hb7' : (strToNat x1).testBit 7 = false := by simpa using hb7
        refine ⟨⟨x0, x2, none, al, strToNat x3, (strToNat x3 : Int) + sp - 1⟩,
          ?_, rfl, fun hc => absurd hc (by simp [hew']),
          fun _ => ⟨fun h6 => absurd h6 (by simp [hb6']),
            fun _ h7 => absurd h7 (by simp [hb7']), fun _ _ => rfl⟩⟩
        have h64 : strToNat x1 &&& 64 = 0 := by
          rw [show (64 : Nat) = 2 ^ 6 from rfl, and_two_pow_eq_zero]; exact hb6'
        have h128 : strToNat x1 &&& 128 = 0 := by
          rw [show (128 : Nat) = 2 ^ 7 from rfl, and_two_pow_eq_zero]; exact hb7'
        simp [parse_sam_line, hhead, hsplit, getIdx, hrn, hposE, hcg, hew', hflagE, h64, h128,
          Bind.bind, Except.bind, Functor.map, Except.map, pure, Except.pure]

/-- Witness for C6 on a mapped SAM line whose FLAG is 64. -/
theorem parse_sam_line_strand_witness :
    (headIs "r1\t64\tref\t5\t30\t3M2D\t*\t0\t0\tACG\tIII\n".data '@' = false ∧
      splitTab (pyRstrip "r1\t64\tref\t5\t30\t3M2D\t*\t0\t0\tACG\tIII\n".data) =
        "r1".data :: "64".data :: "ref".data :: "5".data :: "30".data :: "3M2D".data ::
          ["*".data, "0".data, "0".data, "ACG".data, "III".data] ∧
      "ref".data ≠ ['*'] ∧ pyIsdigitStr "5".data = true ∧
      cigar_to_lens "3M2D".data = .ok (3, 5) ∧ pyIsdigitStr "64".data = true) ∧
    ∃ r : SamRec, parse_sam_line "r1\t64\tref\t5\t30\t3M2D\t*\t0\t0\tACG\tIII\n".data =
        .ok (some r) ∧ r.rname = "ref".data ∧
      (endsWith12 "r1".data = true → r.qname = "r1".data) ∧
      (endsWith12 "r1".data = false →
        ((strToNat "64".data).testBit 6 = true → r.qname = "r1".data ++ ['/', '1']) ∧
        ((strToNat "64".data).testBit 6 = false → (strToNat "64".data).testBit 7 = true →
          r.qname = "r1".data ++ ['/', '2']) ∧
        ((strToNat "64".data).testBit 6 = false → (strToNat "64".data).testBit 7 = false →
          r.qname = "r1".data)) :=
  ⟨⟨by decide, by decide, by decide, by decide, by decide, by decide⟩,
    parse_sam_line_strand "r1\t64\tref\t5\t30\t3M2D\t*\t0\t0\tACG\tIII\n".data
      "r1".data "64".data "ref".data "5".data "30".data "3M2D".data
      ["*".data, "0".data, "0".data, "ACG".data, "III".data] 3 5
      (by decide) (by decide) (by decide) (by decide) (by decide) (by decide)⟩

/-! ### Step equations for the streaming driver -/

/-- Driver loop on an exhausted stream: one final unconditional flush. -/
theorem go_nil (p : Parser) (i j n : Nat) (last : Option Str) (s : PlainState) :
    parseAlignFileGo p [] i j n last s = .ok [flushChunk s.map] := rfl

/-- Driver loop step: an unparseable line is skipped, state untouched. -/
theorem go_skip (p : Parser) (line : Str) (rest : List Str) (i j n : Nat)
    (last : Option Str) (s : PlainState) (h : Plain.parse s p line = .error .typeError) :
    parseAlignFileGo p (line :: rest) i j n last s =
      parseAlignFileGo p rest i j n last s := by
  simp only [parseAlignFileGo, h]

/-- Driver loop step: a non-`TypeError` from parsing aborts the stream. -/
theorem go_fatal (p : Parser) (line : Str) (rest : List Str) (i j n : Nat)
    (last : Option Str) (s : PlainState) (e : PyErr)
    (h : Plain.parse s p line = .error e) (he : e ≠ PyErr.typeError) :
    parseAlignFileGo p (line :: rest) i j n last s = .error e := by
  cases e with
  | typeError => exact absurd rfl he
  | valueError => simp only [parseAlignFileGo, h]
  | indexError => simp only [parseAlignFileGo, h]

/-- Driver loop step: the current run continues (query equals last). -/
theorem go_run (p : Parser) (line : Str) (rest : List Str) (i j n : Nat)
    (last : Option Str) (s : PlainState) (q : Str) (s1 : PlainState)
    (h : Plain.parse s p line = .ok (q, s1)) (hl : some q = last) :
    parseAlignFileGo p (line :: rest) i j n last s =
      parseAlignFileGo p rest (i + 1) j n last (Plain.append s1) := by
  simp only [parseAlignFileGo, h]
  rw [if_neg fun hc => hc hl]

/-- Driver loop step: a new query below the flush threshold. -/
theorem go_new_noflush (p : Parser) (line : Str) (rest : List Str) (i j n : Nat)
    (last : Option Str) (s : PlainState) (q : Str) (s1 : PlainState)
    (h : Plain.parse s p line = .ok (q, s1)) (hl : some q ≠ last) (hj : ¬j ≤ i + 1) :
    parseAlignFileGo p (line :: rest) i j n last s =
      parseAlignFileGo p rest (i + 1) j n (some q) (Plain.append s1) := by
  simp only [parseAlignFileGo, h]
  rw [if_pos hl, if_neg hj]

/-- Driver loop step: a new query at or past the flush threshold flushes the
cache before appending the new pair. -/
theorem go_flush (p : Parser) (line : Str) (rest : List Str) (i j n : Nat)
    (last : Option Str) (s : PlainState) (q : Str) (s1 : PlainState)
    (h : Plain.parse s p line = .ok (q, s1)) (hl : some q ≠ last) (hj : j ≤ i + 1) :
    parseAlignFileGo p (line :: rest) i j n last s =
      match parseAlignFileGo p rest (i + 1) (i + 1 + n) n (some q)
          (Plain.append { s1 with map := [] }) with
      | .error e => .error e
      | .ok chs => .ok (flushChunk s1.map :: chs) := by
  simp only [parseAlignFileGo, h]
  rw [if_pos hl, if_pos hj]

/-- Parse when the parser raises: the error propagates. -/
theorem parse_err (s : PlainState) (p : Parser) (line : Str) (e : PyErr)
    (h : p line = .error e) : Plain.parse s p line = .error e := by
  simp [Plain.parse, h]

/-- Parse when the parser returns `None`: `TypeError`, state untouched. -/
theorem parse_none (s : PlainState) (p : Parser) (line : Str)
    (h : p line = .ok none) : Plain.parse s p line = .error .typeError := by
  simp [Plain.parse, h]

/-- Parse on success: the pair lands in the buffer. -/
theorem parse_some (s : PlainState) (p : Parser) (line : Str) (r : PRes) (q sub : Str)
    (h : p line = .ok (some r)) (hr : r.firstTwo = (q, sub)) :
    Plain.parse s p line = .ok (q, { s with buf := some (q, sub) }) := by
  simp [Plain.parse, h, hr]

/-- Append with a loaded buffer extends the cache. -/
theorem append_buf_some (s : PlainState) (q sub : Str) (h : s.buf = some (q, sub)) :
    Plain.append s = ⟨setdefaultAppend s.map q sub, s.buf⟩ := by
  simp [Plain.append, h]

/-- Pair extraction skips a line the parser raises on. -/
theorem pairsOf_cons_err (p : Parser) (line : Str) (rest : List Str) (e : PyErr)
    (h : p line = .error e) : pairsOf p (line :: rest) = pairsOf p rest := by
  simp [pairsOf, h]

/-- Pair extraction skips a line the parser rejects. -/
theorem pairsOf_cons_none (p : Parser) (line : Str) (rest : List Str)
    (h : p line = .ok none) : pairsOf p (line :: rest) = pairsOf p rest := by
  simp [pairsOf, h]

/-- Pair extraction records the first two fields of a parsed line. -/
theorem pairsOf_cons_some (p : Parser) (line : Str) (rest : List Str) (r : PRes)
    (h : p line = .ok (some r)) :
    pairsOf p (line :: rest) = r.firstTwo :: pairsOf p rest := by
  simp [pairsOf, h]

/-- Flushing does not change the keys of the cache. -/
theorem keys_flushChunk (m : List (Str × List Str)) : keys (flushChunk m) = keys m := by
  induction m with
  | nil => rfl
  | cons e m _ => simp [keys, flushChunk]

/-- Chunk key membership test agrees with the key list. -/
theorem hasKey_iff {k : Str} {ch : Chunk} : hasKey k ch = true ↔ k ∈ keys ch := by
  simp [hasKey, keys, List.any_eq_true, List.mem_map]

/-- Key membership in a flushed chunk is key membership in the cache. -/
theorem hasKey_flushChunk {k : Str} {m : List (Str × List Str)} :
    hasKey k (flushChunk m) = true ↔ k ∈ keys m := by
  rw [hasKey_iff, keys_flushChunk]

/-- A `setdefault`-append introduces at most the appended key. -/
theorem keys_setdefaultAppend_sub (m : List (Str × List Str)) (q sub k : Str)
    (h : k ∈ keys (setdefaultAppend m q sub)) : k ∈ keys m ∨ k = q := by
  induction m with
  | nil => simp [setdefaultAppend, keys] at h; simp [h]
  | cons e m ih =>
    obtain ⟨k0, v⟩ := e
    by_cases h0 : k0 = q
    · subst h0
      have hset : setdefaultAppend ((k0, v) :: m) k0 sub = (k0, v ++ [sub]) :: m := by
        simp [setdefaultAppend]
      rw [hset] at h
      simp only [keys, List.map_cons, List.mem_cons] at h ⊢
      tauto
    · simp only [setdefaultAppend, if_neg h0, keys, List.map_cons, List.mem_cons] at h ⊢
      rcases h with h | h
      · exact Or.inl (Or.inl h)
      · rcases ih h with h' | h'
        · exact Or.inl (Or.inr h')
        · exact Or.inr h'

/-- A contiguous list stays contiguous after dropping its head. -/
theorem contig_tail {a : Str} {l : List Str} (h : Contig (a :: l)) : Contig l := by
  cases l with
  | nil => trivial
  | cons b l => exact h.2

/-- In a contiguous list, a head differing from its successor is gone for
good. -/
theorem contig_not_mem {a b : Str} {l : List Str} (h : Contig (a :: b :: l))
    (hne : a ≠ b) : a ∉ b :: l := h.1.resolve_left hne

/-- Every key of every chunk the loop yields is either already cached or a
query of a remaining line. -/
theorem parseAlignFileGo_keys (p : Parser) (rest : List Str) :
    ∀ (i j n : Nat) (last : Option Str) (s : PlainState) (chunks : List Chunk),
      parseAlignFileGo p rest i j n last s = .ok chunks →
      ∀ ch ∈ chunks, ∀ k, hasKey k ch = true →
        k ∈ keys s.map ∨ k ∈ parserQueries p rest := by
  induction rest with
  | nil =>
    intro i j n last s chunks hok ch hch k hk
    rw [go_nil] at hok
    obtain rfl : ([flushChunk s.map] : List Chunk) = chunks := Except.ok.inj hok
    rw [List.mem_singleton] at hch
    subst hch
    exact Or.inl (hasKey_flushChunk.mp hk)
  | cons line rest ih =>
    intro i j n last s chunks hok ch hch k hk
    cases hp : p line with
    | error e =>
      cases e with
      | typeError =>
        rw [go_skip p line rest i j n last s (parse_err s p line _ hp)] at hok
        have hres := ih i j n last s chunks hok ch hch k hk
        rw [parserQueries, pairsOf_cons_err p line rest _ hp]
        exact hres
      | valueError =>
        rw [go_fatal p line rest i j n last s _ (parse_err s p line _ hp) (by simp)] at hok
        simp at hok
      | indexError =>
        rw [go_fatal p line rest i j n last s _ (parse_err s p line _ hp) (by simp)] at hok
        simp at hok
    | ok ores =>
      cases ores with
      | none =>
        rw [go_skip p line rest i j n last s (parse_none s p line hp)] at hok
        have hres := ih i j n last s chunks hok ch hch k hk
        rw [parserQueries, pairsOf_cons_none p line rest hp]
        exact hres
      | some r =>
        rcases hr : r.firstTwo with ⟨qc, sub⟩
        have hparse := parse_some s p line r qc sub hp hr
        have hq : parserQueries p (line :: rest) = qc :: parserQueries p rest := by
          rw [parserQueries, pairsOf_cons_some p line rest r hp, hr, List.map_cons]
          rfl
        by_cases hl : some qc = last
        · rw [go_run p line rest i j n last s qc _ hparse hl] at hok
          rcases ih _ _ _ _ _ _ hok ch hch k hk with hres | hres
          · have hres' : k ∈ keys (setdefaultAppend s.map qc sub) := hres
            rcases keys_setdefaultAppend_sub s.map qc sub k hres' with h' | h'
            · exact Or.inl h'
            · subst h'; rw [hq]; exact Or.inr (List.mem_cons_self _ _)
          · rw [hq]; exact Or.inr (List.mem_cons_of_mem _ hres)
        · by_cases hj : j ≤ i + 1
          · rw [go_flush p line rest i j n last s qc _ hparse hl hj] at hok
            cases hrec : parseAlignFileGo p rest (i + 1) (i + 1 + n) n (some qc)
                (Plain.append { { s with buf := some (qc, sub) } with map := [] }) with
            | error e => rw [hrec] at hok; simp at hok
            | ok chs =>
              rw [hrec] at hok
              have hok' : (Except.ok (flushChunk s.map :: chs) :
                  Except PyErr (List Chunk)) = .ok chunks := hok
              obtain rfl := Except.ok.inj hok'
              rcases List.mem_cons.mp hch with rfl | hch'
              · exact Or.inl (hasKey_flushChunk.mp hk)
              · rcases ih _ _ _ _ _ _ hrec ch hch' k hk with hres | hres
                · have hres' : k ∈ keys ([(qc, [sub])] : List (Str × List Str)) := hres
                  have : k = qc := by simpa [keys] using hres'
                  subst this
                  rw [hq]; exact Or.inr (List.mem_cons_self _ _)
                · rw [hq]; exact Or.inr (List.mem_cons_of_mem _ hres)
          · rw [go_new_noflush p line rest i j n last s qc _ hparse hl hj] at hok
            rcases ih _ _ _ _ _ _ hok ch hch k hk with hres | hres
            · have hres' : k ∈ keys (setdefaultAppend s.map qc sub) := hres
              rcases keys_setdefaultAppend_sub s.map qc sub k hres' with h' | h'
              · exact Or.inl h'
              · subst h'; rw [hq]; exact Or.inr (List.mem_cons_self _ _)
            · rw [hq]; exact Or.inr (List.mem_cons_of_mem _ hres)

/-- Main invariant of the streaming loop: when the successfully-parsed query
sequence still to come (prefixed by the query of the current run) is
contiguous, and every cached key is either the current run's query or
never parsed again, then no query is a key of more than one yielded
chunk. -/
theorem parseAlignFileGo_countP (p : Parser) (rest : List Str) :
    ∀ (i j n : Nat) (last : Option Str) (s : PlainState) (chunks : List Chunk) (q : Str),
      parseAlignFileGo p rest i j n last s = .ok chunks →
      Contig (last.toList ++ parserQueries p rest) →
      (∀ k, k ∈ keys s.map → k ∈ last.toList ∨ k ∉ parserQueries p rest) →
      chunks.countP (hasKey q) ≤ 1 := by
  induction rest with
  | nil =>
    intro i j n last s chunks q hok _ _
    rw [go_nil] at hok
    obtain rfl : ([flushChunk s.map] : List Chunk) = chunks := Except.ok.inj hok
    exact le_trans (List.countP_le_length _) (by simp)
  | cons line rest ih =>
    intro i j n last s chunks q hok hc hm
    cases hp : p line with
    | error e =>
      cases e with
      | typeError =>
        rw [go_skip p line rest i j n last s (parse_err s p line _ hp)] at hok
        refine ih i j n last s chunks q hok ?_ ?_
        · rw [parserQueries, pairsOf_cons_err p line rest _ hp] at hc
          exact hc
        · intro k hkk
          have := hm k hkk
          rw [parserQueries, pairsOf_cons_err p line rest _ hp] at this
          exact this
      | valueError =>
        rw [go_fatal p line rest i j n last s _ (parse_err s p line _ hp) (by simp)] at hok
        simp at hok
      | indexError =>
        rw [go_fatal p line rest i j n last s _ (parse_err s p line _ hp) (by simp)] at hok
        simp at hok
    | ok ores =>
      cases ores with
      | none =>
        rw [go_skip p line rest i j n last s (parse_none s p line hp)] at hok
        refine ih i j n last s chunks q hok ?_ ?_
        · rw [parserQueries, pairsOf_cons_none p line rest hp] at hc
          exact hc
        · intro k hkk
          have := hm k hkk
          rw [parserQueries, pairsOf_cons_none p line rest hp] at this
          exact this
      | some r =>
        rcases hr : r.firstTwo with ⟨qc, sub⟩
        have hparse := parse_some s p line r qc sub hp hr
        have hq : parserQueries p (line :: rest) = qc :: parserQueries p rest := by
          rw [parserQueries, pairsOf_cons_some p line rest r hp, hr, List.map_cons]
          rfl
        rw [hq] at hc
        have hm' : ∀ k, k ∈ keys s.map →
            k ∈ last.toList ∨ k ∉ qc :: parserQueries p rest := by
          intro k hkk
          have := hm k hkk
          rwa [hq] at this
        by_cases hl : some qc = last
        · subst hl
          have hc2 : Contig (qc :: qc :: parserQueries p rest) := by simpa using hc
          rw [go_run p line rest i j n _ s qc _ hparse rfl] at hok
          refine ih _ _ _ (some qc) _ chunks q hok (by simpa using hc2.2) ?_
          intro k hkk
          have hkk' : k ∈ keys (setdefaultAppend s.map qc sub) := hkk
          rcases keys_setdefaultAppend_sub _ _ _ _ hkk' with h' | h'
          · rcases hm' k h' with h'' | h''
            · exact Or.inl h''
            · exact Or.inr fun hmem => h'' (List.mem_cons_of_mem _ hmem)
          · subst h'; exact Or.inl (by simp)
        · have hc2 : Contig (qc :: parserQueries p rest) := by
            cases last with
            | none => simpa using hc
            | some q0 => exact contig_tail (l := qc :: parserQueries p rest) (by simpa using hc)
          have hnotlast : ∀ q0, last = some q0 → q0 ∉ qc :: parserQueries p rest := by
            intro q0 hq0
            subst hq0
            have hc' : Contig (q0 :: qc :: parserQueries p rest) := by simpa using hc
            exact contig_not_mem hc' fun he => hl (by rw [he])
          have hmTail : ∀ k, k ∈ keys (setdefaultAppend s.map qc sub) →
              k ∈ (some qc).toList ∨ k ∉ parserQueries p rest := by
            intro k hkk
            rcases keys_setdefaultAppend_sub _ _ _ _ hkk with h' | h'
            · rcases hm' k h' with h'' | h''
              · cases hlast : last with
                | none => rw [hlast] at h''; simp at h''
                | some q0 =>
                  rw [hlast] at h''
                  simp at h''
                  subst h''
                  exact Or.inr fun hmem =>
                    hnotlast _ hlast (List.mem_cons_of_mem _ hmem)
              · exact Or.inr fun hmem => h'' (List.mem_cons_of_mem _ hmem)
            · subst h'; exact Or.inl (by simp)
          by_cases hj : j ≤ i + 1
          · rw [go_flush p line rest i j n last s qc _ hparse hl hj] at hok
            cases hrec : parseAlignFileGo p rest (i + 1) (i + 1 + n) n (some qc)
                (Plain.append { { s with buf := some (qc, sub) } with map := [] }) with
            | error e => rw [hrec] at hok; simp at hok
            | ok chs =>
              rw [hrec] at hok
              have hok' : (Except.ok (flushChunk s.map :: chs) :
                  Except PyErr (List Chunk)) = .ok chunks := hok
              obtain rfl := Except.ok.inj hok'
              have hmFlush : ∀ k, k ∈ keys ([(qc, [sub])] : List (Str × List Str)) →
                  k ∈ (some qc).toList ∨ k ∉ parserQueries p rest := by
                intro k hkk
                have : k = qc := by simpa [keys] using hkk
                subst this
                exact Or.inl (by simp)
              have htail := ih _ _ _ (some qc) _ chs q hrec (by simpa using hc2) hmFlush
              by_cases hhk : hasKey q (flushChunk s.map) = true
              · have hqmem : q ∈ keys s.map := hasKey_flushChunk.mp hhk
                have hqnot : q ∉ qc :: parserQueries p rest := by
                  rcases hm' q hqmem with h'' | h''
                  · cases hlast : last with
                    | none => rw [hlast] at h''; simp at h''
                    | some q0 =>
                      rw [hlast] at h''
                      simp at h''
                      subst h''
                      exact hnotlast _ hlast
                  · exact h''
                have hzero : chs.countP (hasKey q) = 0 := by
                  rw [List.countP_eq_zero]
                  intro ch hch hkch
                  rcases parseAlignFileGo_keys p rest _ _ _ _ _ _ hrec ch hch q hkch
                    with h' | h'
                  · have h'' : q ∈ keys ([(qc, [sub])] : List (Str × List Str)) := h'
                    have : q = qc := by simpa [keys] using h''
                    exact hqnot (this ▸ List.mem_cons_self _ _)
                  · exact hqnot (List.mem_cons_of_mem _ h')
                simp [List.countP_cons, hzero, hhk]
              · have hhk' : hasKey q (flushChunk s.map) = false := by simpa using hhk
                simp only [List.countP_cons, hhk', if_false]
                simpa using htail
          · rw [go_new_noflush p line rest i j n last s qc _ hparse hl hj] at hok
            exact ih _ _ _ (some qc) _ chunks q hok (by simpa using hc2) hmTail

/-- Flushing turns the cached subject list of each query into its set. -/
theorem chunkLookup_flushChunk (m : List (Str × List Str)) (q : Str) :
    chunkLookup (flushChunk m) q = (lookupList m q).toFinset := by
  induction m with
  | nil => simp [chunkLookup, flushChunk, lookupList]
  | cons e m ih =>
    obtain ⟨k, v⟩ := e
    by_cases hk : k = q
    · subst hk
      simp [chunkLookup, flushChunk, lookupList, List.find?]
    · have hbeq : (k == q) = false := beq_false_of_ne hk
      simp only [chunkLookup, flushChunk, lookupList, List.map_cons, List.find?, hbeq] at ih ⊢
      exact ih

/-- Subject extraction skips a line the parser raises on. -/
theorem subjectsOf_cons_err (p : Parser) (line : Str) (rest : List Str) (e : PyErr)
    (q : Str) (h : p line = .error e) :
    subjectsOf p (line :: rest) q = subjectsOf p rest q := by
  simp [subjectsOf, pairsOf_cons_err p line rest e h]

/-- Subject extraction skips a line the parser rejects. -/
theorem subjectsOf_cons_none (p : Parser) (line : Str) (rest : List Str) (q : Str)
    (h : p line = .ok none) :
    subjectsOf p (line :: rest) q = subjectsOf p rest q := by
  simp [subjectsOf, pairsOf_cons_none p line rest h]

/-- Subject extraction on a parsed line records the subject under its
query. -/
theorem subjectsOf_cons_some (p : Parser) (line : Str) (rest : List Str) (r : PRes)
    (qc sub q : Str) (h : p line = .ok (some r)) (hr : r.firstTwo = (qc, sub)) :
    subjectsOf p (line :: rest) q =
      if qc = q then sub :: subjectsOf p rest q else subjectsOf p rest q := by
  rw [subjectsOf, pairsOf_cons_some p line rest r h, hr, List.filter_cons]
  by_cases hq : qc = q
  · simp [hq, subjectsOf]
  · simp [hq, beq_false_of_ne hq, subjectsOf]

/-- The merged query-to-subjects association of everything the loop yields
is the cached subjects plus all subjects still to be parsed. -/
theorem parseAlignFileGo_merged (p : Parser) (rest : List Str) :
    ∀ (i j n : Nat) (last : Option Str) (s : PlainState) (chunks : List Chunk) (q : Str),
      parseAlignFileGo p rest i j n last s = .ok chunks →
      mergedSubjects chunks q =
        (lookupList s.map q).toFinset ∪ (subjectsOf p rest q).toFinset := by
  induction rest with
  | nil =>
    intro i j n last s chunks q hok
    rw [go_nil] at hok
    obtain rfl : ([flushChunk s.map] : List Chunk) = chunks := Except.ok.inj hok
    simp [mergedSubjects, chunkLookup_flushChunk, subjectsOf, pairsOf]
  | cons line rest ih =>
    intro i j n last s chunks q hok
    cases hp : p line with
    | error e =>
      cases e with
      | typeError =>
        rw [go_skip p line rest i j n last s (parse_err s p line _ hp)] at hok
        rw [subjectsOf_cons_err p line rest _ q hp]
        exact ih _ _ _ _ _ _ q hok
      | valueError =>
        rw [go_fatal p line rest i j n last s _ (parse_err s p line _ hp) (by simp)] at hok
        simp at hok
      | indexError =>
        rw [go_fatal p line rest i j n last s _ (parse_err s p line _ hp) (by simp)] at hok
        simp at hok
    | ok ores =>
      cases ores with
      | none =>
        rw [go_skip p line rest i j n last s (parse_none s p line hp)] at hok
        rw [subjectsOf_cons_none p line rest q hp]
        exact ih _ _ _ _ _ _ q hok
      | some r =>
        rcases hr : r.firstTwo with ⟨qc, sub⟩
        have hparse := parse_some s p line r qc sub hp hr
        have hsubj := subjectsOf_cons_some p line rest r qc sub q hp hr
        have hlook := lookupList_setdefaultAppend s.map q qc sub
        have hcommon : ∀ (i' j' : Nat) (last' : Option Str),
            parseAlignFileGo p rest i' j' n last'
              (Plain.append { s with buf := some (qc, sub) }) = .ok chunks →
            mergedSubjects chunks q =
              (lookupList s.map q).toFinset ∪ (subjectsOf p (line :: rest) q).toFinset := by
          intro i' j' last' hok'
          have hthis : mergedSubjects chunks q =
              (lookupList (setdefaultAppend s.map qc sub) q).toFinset ∪
                (subjectsOf p rest q).toFinset := ih _ _ _ _ _ _ q hok'
          rw [hthis, hlook, hsubj]
          by_cases hqq : q = qc
          · subst hqq
            simp [List.toFinset_append, Finset.insert_eq, Finset.union_assoc]
          · rw [if_neg hqq, if_neg fun h => hqq h.symm]
        by_cases hl : some qc = last
        · rw [go_run p line rest i j n last s qc _ hparse hl] at hok
          exact hcommon _ _ _ hok
        · by_cases hj : j ≤ i + 1
          · rw [go_flush p line rest i j n last s qc _ hparse hl hj] at hok
            cases hrec : parseAlignFileGo p rest (i + 1) (i + 1 + n) n (some qc)
                (Plain.append { { s with buf := some (qc, sub) } with map := [] }) with
            | error e => rw [hrec] at hok; simp at hok
            | ok chs =>
              rw [hrec] at hok
              have hok' : (Except.ok (flushChunk s.map :: chs) :
                  Except PyErr (List Chunk)) = .ok chunks := hok
              obtain rfl := Except.ok.inj hok'
              have htail : mergedSubjects chs q =
                  (lookupList [(qc, [sub])] q).toFinset ∪
                    (subjectsOf p rest q).toFinset := ih _ _ _ _ _ _ q hrec
              have hmerge : mergedSubjects (flushChunk s.map :: chs) q =
                  chunkLookup (flushChunk s.map) q ∪ mergedSubjects chs q := rfl
              have hlk : lookupList [(qc, [sub])] q = if qc = q then [sub] else [] := by
                by_cases hq2 : qc = q
                · subst hq2; simp [lookupList, List.find?]
                · simp [lookupList, List.find?, beq_false_of_ne hq2, hq2]
              rw [hmerge, chunkLookup_flushChunk, htail, hlk, hsubj]
              by_cases hqq : qc = q
              · simp only [if_pos hqq]
                simp [Finset.insert_eq, Finset.union_assoc]
              · simp only [if_neg hqq]
                simp
          · rw [go_new_noflush p line rest i j n last s qc _ hparse hl hj] at hok
            exact hcommon _ _ _ hok

/-- A full driver run merges to exactly the stream's query-to-subjects
association, regardless of the chunk size. -/
theorem parse_align_file_merged (lines : List Str) (fmtOpt : Option Str) (nOpt : Option Nat)
    (chunks : List Chunk) (q : Str)
    (hok : parse_align_file lines fmtOpt nOpt = .ok chunks) :
    mergedSubjects chunks q = (allSubjects lines fmtOpt q).toFinset := by
  rcases fmtOpt with _ | fmt
  · cases lines with
    | nil =>
      have h0 : parse_align_file [] none nOpt = .ok [] := rfl
      rw [h0] at hok
      obtain rfl := Except.ok.inj hok
      simp [mergedSubjects, allSubjects, resolveParser]
    | cons l1 rest =>
      simp only [parse_align_file] at hok
      cases hinf : infer_align_format l1 with
      | error e => simp only [hinf] at hok; simp at hok
      | ok fmt1 =>
        simp only [hinf] at hok
        cases hasgn : assignParser fmt1 with
        | error e => simp only [hasgn] at hok; simp at hok
        | ok p =>
          simp only [hasgn] at hok
          have hall : allSubjects (l1 :: rest) none q = subjectsOf p (l1 :: rest) q := by
            simp [allSubjects, resolveParser, hinf, hasgn]
          rw [hall]
          cases hp1 : p l1 with
          | error e =>
            have hparse := parse_err Plain.init p l1 e hp1
            simp only [hparse] at hok
            cases e with
            | typeError =>
              have hmm := parseAlignFileGo_merged p rest _ _ _ _ _ _ q hok
              rw [subjectsOf_cons_err p l1 rest _ q hp1]
              simpa [Plain.append, Plain.init, lookupList, List.find?] using hmm
            | valueError => simp at hok
            | indexError => simp at hok
          | ok ores =>
            cases ores with
            | none =>
              have hparse := parse_none Plain.init p l1 hp1
              simp only [hparse] at hok
              have hmm := parseAlignFileGo_merged p rest _ _ _ _ _ _ q hok
              rw [subjectsOf_cons_none p l1 rest q hp1]
              simpa [Plain.append, Plain.init, lookupList, List.find?] using hmm
            | some r =>
              rcases hr : r.firstTwo with ⟨q1, sub1⟩
              have hparse := parse_some Plain.init p l1 r q1 sub1 hp1 hr
              simp only [hparse] at hok
              have hmm := parseAlignFileGo_merged p rest _ _ _ _ _ _ q hok
              have hmm' : mergedSubjects chunks q =
                  (lookupList [(q1, [sub1])] q).toFinset ∪
                    (subjectsOf p rest q).toFinset := hmm
              rw [subjectsOf_cons_some p l1 rest r q1 sub1 q hp1 hr, hmm']
              have hlk : lookupList [(q1, [sub1])] q = if q1 = q then [sub1] else [] := by
                by_cases hq2 : q1 = q
                · subst hq2; simp [lookupList, List.find?]
                · simp [lookupList, List.find?, beq_false_of_ne hq2, hq2]
              rw [hlk]
              by_cases hqq : q1 = q
              · simp only [if_pos hqq]
                simp [Finset.insert_eq]
              · simp only [if_neg hqq]
                simp
  · simp only [parse_align_file] at hok
    cases hasgn : assignParser fmt with
    | error e => simp only [hasgn] at hok; simp at hok
    | ok p =>
      simp only [hasgn] at hok
      have hmm := parseAlignFileGo_merged p lines _ _ _ _ _ _ q hok
      have hall : allSubjects lines (some fmt) q = subjectsOf p lines q := by
        simp [allSubjects, resolveParser, hasgn]
      rw [hall]
      simpa [Plain.init, lookupList, List.find?] using hmm

/-- C1 (counterexample): a stream whose query q1 recurs after q2 intervened
splits q1's subjects across two yielded chunks. -/
theorem chunks_query_split_cex :
    parse_align_file ["q1\ta\n".data, "q2\tb\n".data, "q1\tc\n".data]
        (some "map".data) (some 1) =
      .ok [([] : Chunk),
           [("q1".data, (["a".data] : List Str).toFinset)],
           [("q2".data, (["b".data] : List Str).toFinset)],
           [("q1".data, (["c".data] : List Str).toFinset)]] ∧
    List.countP (hasKey "q1".data)
        [([] : Chunk),
         [("q1".data, (["a".data] : List Str).toFinset)],
         [("q2".data, (["b".data] : List Str).toFinset)],
         [("q1".data, (["c".data] : List Str).toFinset)]] = 2 :=
  ⟨rfl, rfl⟩

/-- C1 (amended): on every input stream whose successfully-parsed query-id
sequence is contiguous (equal ids form one uninterrupted run — no id
recurs after a different id intervened), every query id appearing in
the output is a key of exactly one yielded chunk. -/
theorem chunks_no_query_split (lines : List Str) (fmtOpt : Option Str) (nOpt : Option Nat)
    (chunks : List Chunk) (q : Str)
    (hok : parse_align_file lines fmtOpt nOpt = .ok chunks)
    (hc : Contig (queriesOf lines fmtOpt)) :
    chunks.countP (hasKey q) ≤ 1 ∧
      ((∃ ch ∈ chunks, hasKey q ch = true) → chunks.countP (hasKey q) = 1) := by
  have hle : chunks.countP (hasKey q) ≤ 1 := by
    rcases fmtOpt with _ | fmt
    · cases lines with
      | nil =>
        have h0 : parse_align_file [] none nOpt = .ok [] := rfl
        rw [h0] at hok
        obtain rfl := Except.ok.inj hok
        simp
      | cons l1 rest =>
        simp only [parse_align_file] at hok
        cases hinf : infer_align_format l1 with
        | error e => simp only [hinf] at hok; simp at hok
        | ok fmt1 =>
          simp only [hinf] at hok
          cases hasgn : assignParser fmt1 with
          | error e => simp only [hasgn] at hok; simp at hok
          | ok p =>
            simp only [hasgn] at hok
            have hres : resolveParser (l1 :: rest) none = .ok p := by
              simp [resolveParser, hinf, hasgn]
            simp only [queriesOf, hres] at hc
            cases hp1 : p l1 with
            | error e =>
              have hparse := parse_err Plain.init p l1 e hp1
              simp only [hparse] at hok
              cases e with
              | typeError =>
                refine parseAlignFileGo_countP p rest _ _ _ none _ chunks q hok ?_ ?_
                · have heq : parserQueries p (l1 :: rest) = parserQueries p rest := by
                    rw [parserQueries, pairsOf_cons_err p l1 rest _ hp1]
                    rfl
                  rw [heq] at hc
                  simpa using hc
                · intro k hkk
                  have hkk' : k ∈ keys ([] : List (Str × List Str)) := hkk
                  simp [keys] at hkk'
              | valueError => simp at hok
              | indexError => simp at hok
            | ok ores =>
              cases ores with
              | none =>
                have hparse := parse_none Plain.init p l1 hp1
                simp only [hparse] at hok
                refine parseAlignFileGo_countP p rest _ _ _ none _ chunks q hok ?_ ?_
                · have heq : parserQueries p (l1 :: rest) = parserQueries p rest := by
                    rw [parserQueries, pairsOf_cons_none p l1 rest hp1]
                    rfl
                  rw [heq] at hc
                  simpa using hc
                · intro k hkk
                  have hkk' : k ∈ keys ([] : List (Str × List Str)) := hkk
                  simp [keys] at hkk'
              | some r =>
                rcases hr : r.firstTwo with ⟨q1, sub1⟩
                have hparse := parse_some Plain.init p l1 r q1 sub1 hp1 hr
                simp only [hparse] at hok
                have hq : parserQueries p (l1 :: rest) = q1 :: parserQueries p rest := by
                  rw [parserQueries, pairsOf_cons_some p l1 rest r hp1, hr, List.map_cons]
                  rfl
                rw [hq] at hc
                refine parseAlignFileGo_countP p rest _ _ _ (some q1) _ chunks q hok ?_ ?_
                · simpa using hc
                · intro k hkk
                  have hkk' : k ∈ keys ([(q1, [sub1])] : List (Str × List Str)) := hkk
                  have : k = q1 := by simpa [keys] using hkk'
                  subst this
                  exact Or.inl (by simp)
    · simp only [parse_align_file] at hok
      cases hasgn : assignParser fmt with
      | error e => simp only [hasgn] at hok; simp at hok
      | ok p =>
        simp only [hasgn] at hok
        have hres : resolveParser lines (some fmt) = .ok p := by
          simp [resolveParser, hasgn]
        simp only [queriesOf, hres] at hc
        refine parseAlignFileGo_countP p lines _ _ _ none Plain.init chunks q hok ?_ ?_
        · simpa using hc
        · intro k hkk
          simp [Plain.init, keys] at hkk
  refine ⟨hle, fun hex => ?_⟩
  obtain ⟨ch, hch, hk⟩ := hex
  have hpos : 0 < chunks.countP (hasKey q) := List.countP_pos_iff.mpr ⟨ch, hch, hk⟩
  omega

/-- Witness for the amended C1 statement on a contiguous two-query stream. -/
theorem chunks_no_query_split_witness :
    (parse_align_file ["a\t1\n".data, "b\t2\n".data] (some "map".data) (some 1) =
      .ok [([] : Chunk),
           [("a".data, (["1".data] : List Str).toFinset)],
           [("b".data, (["2".data] : List Str).toFinset)]] ∧
      Contig (queriesOf ["a\t1\n".data, "b\t2\n".data] (some "map".data))) ∧
    (List.countP (hasKey "a".data)
        [([] : Chunk),
         [("a".data, (["1".data] : List Str).toFinset)],
         [("b".data, (["2".data] : List Str).toFinset)]] ≤ 1 ∧
      ((∃ ch ∈ [([] : Chunk),
           [("a".data, (["1".data] : List Str).toFinset)],
           [("b".data, (["2".data] : List Str).toFinset)]], hasKey "a".data ch = true) →
        List.countP (hasKey "a".data)
          [([] : Chunk),
           [("a".data, (["1".data] : List Str).toFinset)],
           [("b".data, (["2".data] : List Str).toFinset)]] = 1)) :=
  ⟨⟨rfl, by decide⟩,
    chunks_no_query_split ["a\t1\n".data, "b\t2\n".data] (some "map".data) (some 1)
      _ "a".data rfl (by decide)⟩

/-- C8: feeding the same plain-map stream with chunk size 1 and with chunk
size 1000000, then merging all yielded mappings by union of subject
sets per query, produces identical final query-to-subjects
associations. -/
theorem chunk_sizes_merge_agree (lines : List Str) (c1 c2 : List Chunk) (q : Str)
    (h1 : parse_align_file lines (some "map".data) (some 1) = .ok c1)
    (h2 : parse_align_file lines (some "map".data) (some 1000000) = .ok c2) :
    mergedSubjects c1 q = mergedSubjects c2 q := by
  rw [parse_align_file_merged lines (some "map".data) (some 1) c1 q h1,
    parse_align_file_merged lines (some "map".data) (some 1000000) c2 q h2]

/-- Witness for C8 on a three-line stream with a repeated query. -/
theorem chunk_sizes_merge_agree_witness :
    (parse_align_file ["a\t1\n".data, "a\t2\n".data, "b\t3\n".data]
        (some "map".data) (some 1) =
      .ok [([] : Chunk),
           [("a".data, (["1".data, "2".data] : List Str).toFinset)],
           [("b".data, (["3".data] : List Str).toFinset)]] ∧
      parse_align_file ["a\t1\n".data, "a\t2\n".data, "b\t3\n".data]
        (some "map".data) (some 1000000) =
      .ok [[("a".data, (["1".data, "2".data] : List Str).toFinset),
            ("b".data, (["3".data] : List Str).toFinset)]]) ∧
    mergedSubjects
        [([] : Chunk),
         [("a".data, (["1".data, "2".data] : List Str).toFinset)],
         [("b".data, (["3".data] : List Str).toFinset)]] "a".data =
      mergedSubjects
        [[("a".data, (["1".data, "2".data] : List Str).toFinset),
          ("b".data, (["3".data] : List Str).toFinset)]] "a".data :=
  ⟨⟨rfl, rfl⟩,
    chunk_sizes_merge_agree ["a\t1\n".data, "a\t2\n".data, "b\t3\n".data]
      _ _ "a".data rfl rfl⟩

/-- Witness for C10 after parsing one plain-map line from a fresh mapper. -/
theorem plain_append_frame_witness :
    Plain.parse Plain.init parseMapLineP "q\ts\n".data =
      .ok ("q".data, ⟨[], some ("q".data, "s".data)⟩) ∧
    ∃ sub, (⟨[], some ("q".data, "s".data)⟩ : PlainState).buf = some ("q".data, sub) ∧
      lookupList (Plain.append (Plain.append
          (⟨[], some ("q".data, "s".data)⟩ : PlainState))).map "q".data =
        lookupList (⟨[], some ("q".data, "s".data)⟩ : PlainState).map "q".data ++
          [sub, sub] :=
  ⟨rfl, plain_append_frame.2 Plain.init parseMapLineP "q\ts\n".data "q".data
    ⟨[], some ("q".data, "s".data)⟩ rfl⟩

end Woltka
